import Mathlib

/-!
# Verification of the ChatRoom room-broadcast subsystem

Shallow embedding of the repository's real-time chat core:

* the WebSocket server (`server/websocket-server.js`, class `ChatServer`):
  room registry (`rooms : Map roomCode → Set client`), session table
  (`clients : Map client → {username, roomCode, lastSeen}`), and the
  message handlers `handleJoinRoom`, `handleChatMessage`, `handleTyping`,
  `handlePing`, `handleDisconnection`, `leaveCurrentRoom`,
  `getRoomUsers`, `broadcastToRoom`, `send`, `sendError`;
* the client-side validators and connection manager
  (`js/app.js` / `js/utils.js`: `validateRoomCode`, `validateUsername`;
  `js/chat-service.js`: `ChatService.connect`;
  `js/websocket-service.js`: `WebSocketService.handleClose`,
  `attemptReconnect`).

Connections are identified by `ClientId` (reference identity of the `ws`
objects).  The JavaScript `Map`s are modelled as functions into `Option`;
the JavaScript `Set` of room members is modelled as an insertion-ordered
duplicate-free list (`Set.add` appends when absent, `Set.delete` removes).
Side effects are made explicit: each handler returns the new state together
with the list of `(recipient, message)` pairs actually written to open
transports.  `Date.now()` and `generateId()` are passed in as parameters
(`now`, `gen`); the transport readiness check `readyState === OPEN` is the
parameter `isOpen`.
-/

abbrev ClientId := Nat

/-- The per-connection record stored in `ChatServer.clients`
(`{ username, roomCode, lastSeen }`). -/
structure ClientInfo where
  username : String
  roomCode : String
  lastSeen : Nat
deriving Repr, DecidableEq

/-- Outbound wire messages produced by the server (`this.send(ws, {...})`).
Constructors mirror the `type` field of each JSON object. -/
inductive OutMsg where
  | connected (message : String)
  | roomJoined (roomCode username : String)
  | userJoined (username : String) (timestamp : Nat)
  | userLeft (username : String) (timestamp : Nat)
  | userList (users : List String)
  | chatMessage (id username content : String) (timestamp : Nat)
  | typing (username : String) (isTyping : Bool) (timestamp : Nat)
  | pong (timestamp : Nat)
  | error (message : String) (timestamp : Nat)
deriving Repr, DecidableEq

/-- Inbound `chat_message` envelope as sent by
`WebSocketService.sendChatMessage` (the server reads only `id` and
`content`; `""` models a missing/falsy `id`, matching `message.id || …`). -/
structure ChatMsgIn where
  id : String
  content : String
  roomCode : String
  username : String
  timestamp : Nat
deriving Repr, DecidableEq

/-- Inbound `typing` envelope as sent by
`WebSocketService.sendTypingIndicator` (the server reads only `isTyping`). -/
structure TypingMsgIn where
  isTyping : Bool
  roomCode : String
  username : String
  timestamp : Nat
deriving Repr, DecidableEq

/-- Inbound `join_room` envelope (`""` models a missing/falsy field,
matching the `!roomCode || !username` guard). -/
structure JoinMsgIn where
  roomCode : String
  username : String
deriving Repr, DecidableEq

/-- A parsed inbound envelope, dispatched by `ChatServer.handleMessage`'s
`switch (message.type)`; `other` is a well-formed envelope whose `type`
matches no case. -/
inductive InMsg where
  | joinRoom (m : JoinMsgIn)
  | chatMessage (m : ChatMsgIn)
  | typing (m : TypingMsgIn)
  | ping
  | other (ty : String)
deriving Repr, DecidableEq

/-- What arrives on the `'message'` event of a connection: either bytes
that fail `JSON.parse` (`invalid`) or a parsed envelope. -/
inductive RawMsg where
  | invalid
  | valid (m : InMsg)
deriving Repr, DecidableEq

/-- JavaScript `String.prototype.toUpperCase`, character-wise over the
string's characters. -/
def jsToUpper (s : String) : String := ⟨s.data.map Char.toUpper⟩

/-- JavaScript `String.prototype.trim`: strips whitespace from both ends. -/
def jsTrim (s : String) : String :=
  ⟨((s.data.dropWhile Char.isWhitespace).reverse.dropWhile Char.isWhitespace).reverse⟩

/-- JavaScript `String.prototype.length`, as a character count. -/
def jsLength (s : String) : Nat := s.data.length

/-- Pointwise update of a JavaScript `Map` modelled as a function:
`Map.set` is `mapSet m k (some v)`, `Map.delete` is `mapSet m k none`. -/
def mapSet {α β : Type} [DecidableEq α] (m : α → Option β) (k : α) (v : Option β) :
    α → Option β :=
  fun k' => if k' = k then v else m k'

@[simp] theorem mapSet_self {α β : Type} [DecidableEq α] (m : α → Option β) (k : α)
    (v : Option β) : mapSet m k v k = v := by
  simp [mapSet]

theorem mapSet_other {α β : Type} [DecidableEq α] (m : α → Option β) (k k' : α)
    (v : Option β) (h : k' ≠ k) : mapSet m k v k' = m k' := by
  simp [mapSet, h]

/-- The mutable state of `ChatServer`: the room registry and the session
table (constructor fields `this.rooms`, `this.clients`). -/
structure ServerState where
  rooms : String → Option (List ClientId)
  clients : ClientId → Option ClientInfo

/-- The initial server state: both maps empty (`new Map()`). -/
def initState : ServerState := ⟨fun _ => none, fun _ => none⟩

namespace ServerState

/-- `ChatServer.send`: writes the message only when the target transport is
open (`ws.readyState === WebSocket.OPEN`). -/
def sendTo (isOpen : ClientId → Bool) (ws : ClientId) (m : OutMsg) :
    List (ClientId × OutMsg) :=
  if isOpen ws then [(ws, m)] else []

/-- `ChatServer.broadcastToRoom`: iterates the room's member set and sends
to every member other than `exclude` whose transport is open. -/
def broadcastToRoom (st : ServerState) (isOpen : ClientId → Bool) (roomCode : String)
    (m : OutMsg) (exclude : Option ClientId) : List (ClientId × OutMsg) :=
  match st.rooms roomCode with
  | none => []
  | some room =>
    room.filterMap fun c => if some c ≠ exclude ∧ isOpen c then some (c, m) else none

/-- `ChatServer.getRoomUsers`: the usernames of the room's members that
have an entry in the session table, in member-set order. -/
def getRoomUsers (st : ServerState) (roomCode : String) : List String :=
  match st.rooms roomCode with
  | none => []
  | some room => room.filterMap fun c => (st.clients c).map (·.username)

/-- `ChatServer.leaveCurrentRoom`: removes `ws` from its current room; if
the room becomes empty it is deleted from the registry, otherwise the
remaining members are sent `user_left` and the updated `user_list`.
The session-table entry of `ws` is untouched here. -/
def leaveCurrentRoom (st : ServerState) (isOpen : ClientId → Bool) (ws : ClientId)
    (now : Nat) : ServerState × List (ClientId × OutMsg) :=
  match st.clients ws with
  | none => (st, [])
  | some client =>
    match st.rooms client.roomCode with
    | none => (st, [])
    | some room =>
      let room' := room.erase ws
      if room' = [] then
        ({ st with rooms := mapSet st.rooms client.roomCode none }, [])
      else
        let st' : ServerState :=
          { st with rooms := mapSet st.rooms client.roomCode (some room') }
        let out1 := st'.broadcastToRoom isOpen client.roomCode
          (.userLeft client.username now) none
        let users := st'.getRoomUsers client.roomCode
        (st', out1 ++ st'.broadcastToRoom isOpen client.roomCode (.userList users) none)

/-- `ChatServer.handleJoinRoom`: rejects a missing/empty `roomCode` or
`username` with an error; otherwise detaches the session from any previous
room, inserts it into the target room (created on demand), records the
session, and emits `room_joined`, `user_joined` (to the rest of the room),
`user_list` to the joiner and `user_list` to the whole room. -/
def handleJoinRoom (st : ServerState) (isOpen : ClientId → Bool) (ws : ClientId)
    (roomCode username : String) (now : Nat) : ServerState × List (ClientId × OutMsg) :=
  if roomCode = "" ∨ username = "" then
    (st, sendTo isOpen ws (.error "Room code and username are required" now))
  else
    let p := st.leaveCurrentRoom isOpen ws now
    let st1 := p.1
    let room := (st1.rooms roomCode).getD []
    let room' := if ws ∈ room then room else room ++ [ws]
    let st2 : ServerState :=
      { rooms := mapSet st1.rooms roomCode (some room'),
        clients := mapSet st1.clients ws (some ⟨username, roomCode, now⟩) }
    let out1 := sendTo isOpen ws (.roomJoined roomCode username)
    let out2 := st2.broadcastToRoom isOpen roomCode (.userJoined username now) (some ws)
    let users := st2.getRoomUsers roomCode
    let out3 := sendTo isOpen ws (.userList users)
    let out4 := st2.broadcastToRoom isOpen roomCode (.userList users) none
    (st2, p.2 ++ out1 ++ out2 ++ out3 ++ out4)

/-- `ChatServer.handleChatMessage`: errors to the sender when it has no
session or the content trims to empty; otherwise broadcasts one
`chat_message` — id `message.id || generateId()`, the *registered*
username, trimmed content, server timestamp — to the whole room,
sender included.  The state is not modified. -/
def handleChatMessage (st : ServerState) (isOpen : ClientId → Bool) (ws : ClientId)
    (m : ChatMsgIn) (now : Nat) (gen : String) : List (ClientId × OutMsg) :=
  match st.clients ws with
  | none => sendTo isOpen ws (.error "Not in a room" now)
  | some client =>
    if jsTrim m.content = "" then
      sendTo isOpen ws (.error "Message content is required" now)
    else
      st.broadcastToRoom isOpen client.roomCode
        (.chatMessage (if m.id = "" then gen else m.id) client.username
          (jsTrim m.content) now) none

/-- `ChatServer.handleTyping`: silently ignored when the sender has no
session; otherwise broadcasts a `typing` event carrying the *registered*
username to the room, excluding the sender. -/
def handleTyping (st : ServerState) (isOpen : ClientId → Bool) (ws : ClientId)
    (m : TypingMsgIn) (now : Nat) : List (ClientId × OutMsg) :=
  match st.clients ws with
  | none => []
  | some client =>
    st.broadcastToRoom isOpen client.roomCode
      (.typing client.username m.isTyping now) (some ws)

/-- `ChatServer.handlePing`: replies `pong` and refreshes `lastSeen`. -/
def handlePing (st : ServerState) (isOpen : ClientId → Bool) (ws : ClientId)
    (now : Nat) : ServerState × List (ClientId × OutMsg) :=
  let out := sendTo isOpen ws (.pong now)
  match st.clients ws with
  | none => (st, out)
  | some client =>
    ({ st with clients := mapSet st.clients ws (some { client with lastSeen := now }) },
      out)

/-- `ChatServer.handleMessage`: the `switch (message.type)` dispatch.  An
unknown `type` only hits the `default:` branch, which logs and sends
nothing. -/
def handleMessage (st : ServerState) (isOpen : ClientId → Bool) (ws : ClientId)
    (msg : InMsg) (now : Nat) (gen : String) : ServerState × List (ClientId × OutMsg) :=
  match msg with
  | .joinRoom m => st.handleJoinRoom isOpen ws m.roomCode m.username now
  | .chatMessage m => (st, st.handleChatMessage isOpen ws m now gen)
  | .typing m => (st, st.handleTyping isOpen ws m now)
  | .ping => st.handlePing isOpen ws now
  | .other _ => (st, [])

/-- Result of handling one `'message'` event: new state, messages written,
and the connections the server closed while handling (always `[]`: no
handler calls `ws.close()`/`ws.terminate()`; only the cleanup timer,
modelled as a separate disconnect step, ever terminates a connection). -/
structure Effect where
  state : ServerState
  out : List (ClientId × OutMsg)
  closed : List ClientId

/-- The `'message'` listener installed by `ChatServer.handleConnection`:
a `JSON.parse` failure answers `sendError(ws, 'Invalid message format')`;
a parsed envelope goes to `handleMessage`. -/
def handleRaw (st : ServerState) (isOpen : ClientId → Bool) (ws : ClientId)
    (r : RawMsg) (now : Nat) (gen : String) : Effect :=
  match r with
  | .invalid => ⟨st, sendTo isOpen ws (.error "Invalid message format" now), []⟩
  | .valid m =>
    let p := st.handleMessage isOpen ws m now gen
    ⟨p.1, p.2, []⟩

/-- `ChatServer.handleDisconnection` (the `'close'` listener, also reached
by the cleanup timer's `ws.terminate()`): runs the leave processing when a
session exists, then deletes the session-table entry. -/
def handleDisconnection (st : ServerState) (isOpen : ClientId → Bool) (ws : ClientId)
    (now : Nat) : ServerState × List (ClientId × OutMsg) :=
  let p :=
    match st.clients ws with
    | some _ => st.leaveCurrentRoom isOpen ws now
    | none => (st, [])
  ({ p.1 with clients := mapSet p.1.clients ws none }, p.2)

end ServerState

/-- One externally observable event driving the server: an inbound message
from a connection, or a transport close (explicit leave, network drop, or
eviction by the cleanup timer — all fire the same `'close'` handler). -/
inductive Step where
  | inbound (ws : ClientId) (isOpen : ClientId → Bool) (r : RawMsg) (now : Nat)
      (gen : String)
  | close (ws : ClientId) (isOpen : ClientId → Bool) (now : Nat)

/-- The state transition of one step. -/
def applyStep (st : ServerState) (s : Step) : ServerState :=
  match s with
  | .inbound ws isOpen r now gen => (st.handleRaw isOpen ws r now gen).state
  | .close ws isOpen now => (st.handleDisconnection isOpen ws now).1

/-- The server state after a sequence of events, starting from empty. -/
def runSteps (l : List Step) : ServerState := l.foldl applyStep initState

/-! ## Client side

`validateRoomCode` and `validateUsername` (js/utils.js) are the only
room-code / display-name format checks in the repository; they run in the
browser (`app.js` form handlers and `ChatService.connect`) before a
`join_room` message is sent.  `ChatService.connect` normalizes the inputs
(`roomCode.toUpperCase()`, `username.trim()`) and `WebSocketService.connect`
sends the `join_room` envelope with the normalized values. -/

/-- `validateRoomCode` (js/utils.js): non-empty, and the uppercased string
matches `/^[A-Z0-9]{6}$/`. -/
def validateRoomCode (code : String) : Bool :=
  if code = "" then false
  else
    let up := jsToUpper code
    jsLength up = 6 && up.data.all fun c =>
      decide (('A' ≤ c ∧ c ≤ 'Z') ∨ ('0' ≤ c ∧ c ≤ '9'))

/-- `validateUsername` (js/utils.js): non-empty, trimmed length 1–20, and
the trimmed string matches `/^[a-zA-Z0-9\s\-_]+$/`. -/
def validateUsername (username : String) : Bool :=
  if username = "" then false
  else
    let t := jsTrim username
    decide (1 ≤ jsLength t) && decide (jsLength t ≤ 20) &&
      t.data.all fun c =>
        c.isAlpha || c.isDigit || c.isWhitespace || c = '-' || c = '_'

/-- `ChatService.connect` (js/chat-service.js) composed with
`WebSocketService.connect`: when either validator rejects, it throws and no
join is sent (`none`); otherwise the `join_room` envelope carries
`roomCode.toUpperCase()` and `username.trim()`. -/
def clientJoinRequest (roomCode username : String) : Option JoinMsgIn :=
  if validateRoomCode roomCode && validateUsername username then
    some ⟨jsToUpper roomCode, jsTrim username⟩
  else none

/-- The reconnect-relevant fields of `WebSocketService`
(js/websocket-service.js). -/
structure ClientConn where
  isConnected : Bool
  reconnectAttempts : Nat
  heartbeatOn : Bool
deriving Repr, DecidableEq

/-- `this.maxReconnectAttempts = 5`. -/
def maxReconnectAttempts : Nat := 5

/-- `this.reconnectDelay = 1000` (milliseconds). -/
def reconnectDelayMs : Nat := 1000

/-- Everything a `WebSocketService` method can do to the outside world.
The reconnect path of the source performs none of these except logging. -/
inductive ClientAction where
  | openSocket (url : String)
  | sendJoin (roomCode username : String)
  | useSimulationMode
deriving Repr, DecidableEq

/-- `WebSocketService.attemptReconnect`: increments `reconnectAttempts` and
computes `delay = reconnectDelay * 2^(reconnectAttempts - 1)` for the
`setTimeout` it schedules.  Returns the new state and that delay. -/
def attemptReconnect (c : ClientConn) : ClientConn × Nat :=
  let attempts := c.reconnectAttempts + 1
  ({ c with reconnectAttempts := attempts }, reconnectDelayMs * 2 ^ (attempts - 1))

/-- The body of the timer scheduled by `attemptReconnect`: the source only
executes `console.log('Reconnection attempt...')` behind an attempt-count
check — it opens no socket, sends no `join_room`, switches no mode, and
leaves the state unchanged. -/
def reconnectTimerFires (c : ClientConn) : ClientConn × List ClientAction :=
  (c, [])

/-- `WebSocketService.handleClose`: clears `isConnected`, stops the
heartbeat, and — when the close code is not the normal `1000` and the
attempt budget is not yet exhausted — calls `attemptReconnect`.  Returns
the new state and the delay of the scheduled reconnect timer, if any. -/
def handleClose (c : ClientConn) (closeCode : Nat) : ClientConn × Option Nat :=
  let c1 : ClientConn := { c with isConnected := false, heartbeatOn := false }
  if closeCode ≠ 1000 ∧ c1.reconnectAttempts < maxReconnectAttempts then
    let p := attemptReconnect c1
    (p.1, some p.2)
  else (c1, none)

example :
    ((initState.handleJoinRoom (fun _ => true) 0 "ROOM01" "Alice" 5).1.rooms "ROOM01")
      = some [0] := by
  decide

example :
    (runSteps [.inbound 0 (fun _ => true) (.valid (.joinRoom ⟨"ROOM01", "Alice"⟩)) 1 "g",
      .close 0 (fun _ => true) 2]).rooms "ROOM01" = none := by
  decide

example : validateRoomCode "ab12cd" = true := by decide
example : validateRoomCode "AB" = false := by decide
example : validateUsername "Al!ce" = false := by decide
example : validateUsername "Alice" = true := by decide

/-! ## Registry well-formedness

Invariants maintained by every server event: every registered room is
non-empty with a duplicate-free member set, and every member has a
session-table entry pointing back at that room. -/

/-- Well-formedness of the server registries. -/
def WF (st : ServerState) : Prop :=
  (∀ rc room, st.rooms rc = some room → room ≠ [] ∧ room.Nodup) ∧
  (∀ rc room c, st.rooms rc = some room → c ∈ room →
      ∃ info, st.clients c = some info ∧ info.roomCode = rc)

theorem wf_init : WF initState := by
  refine ⟨?_, ?_⟩
  · intro rc room h; exact Option.noConfusion h
  · intro rc room c h; exact fun _ => Option.noConfusion h

namespace ServerState

theorem leave_clients (st : ServerState) (isOpen : ClientId → Bool) (ws : ClientId)
    (now : Nat) : (st.leaveCurrentRoom isOpen ws now).1.clients = st.clients := by
  cases hc : st.clients ws with
  | none => simp [leaveCurrentRoom, hc]
  | some client =>
    cases hr : st.rooms client.roomCode with
    | none => simp [leaveCurrentRoom, hc, hr]
    | some room =>
      by_cases he : room.erase ws = [] <;> simp [leaveCurrentRoom, hc, hr, he]

/-- Pointwise description of the room registry after `leaveCurrentRoom`:
only the key of the leaver's current room can change, becoming the erased
member set, or absent when that set is empty. -/
theorem leave_rooms_eq (st : ServerState) (isOpen : ClientId → Bool) (ws : ClientId)
    (now : Nat) (rc : String) :
    (st.leaveCurrentRoom isOpen ws now).1.rooms rc =
      match st.clients ws with
      | none => st.rooms rc
      | some client =>
        match st.rooms client.roomCode with
        | none => st.rooms rc
        | some room =>
          if rc = client.roomCode then
            (if room.erase ws = [] then none else some (room.erase ws))
          else st.rooms rc := by
  cases hc : st.clients ws with
  | none => simp [leaveCurrentRoom, hc]
  | some client =>
    cases hr : st.rooms client.roomCode with
    | none => simp [leaveCurrentRoom, hc, hr]
    | some room =>
      by_cases he : room.erase ws = [] <;>
        by_cases hk : rc = client.roomCode <;>
          simp [leaveCurrentRoom, hc, hr, he, hk, mapSet]

theorem leave_rooms_none (st : ServerState) (isOpen : ClientId → Bool) (ws : ClientId)
    (now : Nat) (rc : String) (h : st.rooms rc = none) :
    (st.leaveCurrentRoom isOpen ws now).1.rooms rc = none := by
  rw [leave_rooms_eq]
  cases hc : st.clients ws with
  | none => simp only []; exact h
  | some client =>
    simp only []
    cases hr : st.rooms client.roomCode with
    | none => simp only []; exact h
    | some room =>
      simp only []
      have hk : rc ≠ client.roomCode := fun he => by
        rw [he, hr] at h; exact Option.noConfusion h
      rw [if_neg hk]; exact h

theorem leave_not_mem (st : ServerState) (isOpen : ClientId → Bool) (ws : ClientId)
    (now : Nat) (hWF : WF st) : ∀ rc room,
    (st.leaveCurrentRoom isOpen ws now).1.rooms rc = some room → ws ∉ room := by
  intro rc room h hmem
  rw [leave_rooms_eq] at h
  cases hc : st.clients ws with
  | none =>
    simp only [hc] at h
    obtain ⟨info, hinfo, -⟩ := hWF.2 rc room ws h hmem
    rw [hc] at hinfo
    exact Option.noConfusion hinfo
  | some client =>
    simp only [hc] at h
    cases hr : st.rooms client.roomCode with
    | none =>
      simp only [hr] at h
      obtain ⟨info, hinfo, hrcd⟩ := hWF.2 rc room ws h hmem
      rw [hc] at hinfo
      obtain rfl : client = info := Option.some_injective _ hinfo
      rw [hrcd] at hr; rw [h] at hr
      exact Option.noConfusion hr
    | some room₀ =>
      simp only [hr] at h
      by_cases hk : rc = client.roomCode
      · rw [if_pos hk] at h
        by_cases he : room₀.erase ws = []
        · rw [if_pos he] at h; exact Option.noConfusion h
        · rw [if_neg he] at h
          obtain rfl : room₀.erase ws = room := Option.some_injective _ h
          have hnd : room₀.Nodup := (hWF.1 _ room₀ hr).2
          exact ((List.Nodup.mem_erase_iff hnd).mp hmem).1 rfl
      · rw [if_neg hk] at h
        obtain ⟨info, hinfo, hrcd⟩ := hWF.2 rc room ws h hmem
        rw [hc] at hinfo
        obtain rfl : client = info := Option.some_injective _ hinfo
        exact hk hrcd.symm

theorem wf_leave (st : ServerState) (isOpen : ClientId → Bool) (ws : ClientId)
    (now : Nat) (hWF : WF st) : WF (st.leaveCurrentRoom isOpen ws now).1 := by
  have hcl := st.leave_clients isOpen ws now
  have key : ∀ rc room, (st.leaveCurrentRoom isOpen ws now).1.rooms rc = some room →
      room ≠ [] ∧ room.Nodup ∧
        ∀ c, c ∈ room → ∃ info, st.clients c = some info ∧ info.roomCode = rc := by
    intro rc room h
    rw [leave_rooms_eq] at h
    cases hc : st.clients ws with
    | none =>
      simp only [hc] at h
      exact ⟨(hWF.1 rc room h).1, (hWF.1 rc room h).2, fun c hm => hWF.2 rc room c h hm⟩
    | some client =>
      simp only [hc] at h
      cases hr : st.rooms client.roomCode with
      | none =>
        simp only [hr] at h
        exact ⟨(hWF.1 rc room h).1, (hWF.1 rc room h).2, fun c hm => hWF.2 rc room c h hm⟩
      | some room₀ =>
        simp only [hr] at h
        by_cases hk : rc = client.roomCode
        · rw [if_pos hk] at h
          by_cases he : room₀.erase ws = []
          · rw [if_pos he] at h; exact Option.noConfusion h
          · rw [if_neg he] at h
            obtain rfl : room₀.erase ws = room := Option.some_injective _ h
            refine ⟨he, ((hWF.1 _ room₀ hr).2).erase ws, fun c hm => ?_⟩
            subst hk
            exact hWF.2 _ room₀ c hr (List.mem_of_mem_erase hm)
        · rw [if_neg hk] at h
          exact ⟨(hWF.1 rc room h).1, (hWF.1 rc room h).2, fun c hm => hWF.2 rc room c h hm⟩
  refine ⟨fun rc room h => ⟨(key rc room h).1, (key rc room h).2.1⟩,
    fun rc room c h hm => ?_⟩
  rw [hcl]
  exact (key rc room h).2.2 c hm

theorem nodup_append_single {l : List ClientId} {a : ClientId}
    (h : l.Nodup) (ha : a ∉ l) : (l ++ [a]).Nodup := by
  refine List.Nodup.append h (List.nodup_singleton a) ?_
  intro x hx hx'
  rw [List.mem_singleton] at hx'
  subst hx'
  exact ha hx

/-- The state produced by a join with both fields present: target room
gains `ws` (after the implicit leave), and the session table records the
new identity. -/
theorem join_state_eq (st : ServerState) (isOpen : ClientId → Bool) (ws : ClientId)
    (rc u : String) (now : Nat) (hrc : rc ≠ "") (hu : u ≠ "") :
    (st.handleJoinRoom isOpen ws rc u now).1 =
      { rooms := mapSet (st.leaveCurrentRoom isOpen ws now).1.rooms rc
          (some ((fun room => if ws ∈ room then room else room ++ [ws])
            (((st.leaveCurrentRoom isOpen ws now).1.rooms rc).getD []))),
        clients := mapSet (st.leaveCurrentRoom isOpen ws now).1.clients ws
          (some ⟨u, rc, now⟩) } := by
  unfold handleJoinRoom
  rw [if_neg (by simp [hrc, hu])]

theorem wf_join (st : ServerState) (isOpen : ClientId → Bool) (ws : ClientId)
    (rc u : String) (now : Nat) (hWF : WF st) :
    WF (st.handleJoinRoom isOpen ws rc u now).1 := by
  by_cases hguard : rc = "" ∨ u = ""
  · unfold handleJoinRoom
    rw [if_pos hguard]
    exact hWF
  · push_neg at hguard
    rw [join_state_eq st isOpen ws rc u now hguard.1 hguard.2]
    have hWF1 := st.wf_leave isOpen ws now hWF
    have hnm := st.leave_not_mem isOpen ws now hWF
    set st1 := (st.leaveCurrentRoom isOpen ws now).1 with hst1
    have hws : ws ∉ (st1.rooms rc).getD [] := by
      cases hr : st1.rooms rc with
      | none => simp
      | some room => simpa using hnm rc room hr
    have hnodup : ((st1.rooms rc).getD []).Nodup := by
      cases hr : st1.rooms rc with
      | none => simp
      | some room => simpa using (hWF1.1 rc room hr).2
    refine ⟨?_, ?_⟩
    · intro rc0 room0 h
      simp only [] at h
      by_cases hk : rc0 = rc
      · subst hk
        rw [mapSet_self] at h
        obtain rfl := (Option.some_injective _ h).symm
        rw [if_neg hws]
        constructor
        · simp
        · exact nodup_append_single hnodup hws
      · rw [mapSet_other _ _ _ _ hk] at h
        exact hWF1.1 rc0 room0 h
    · intro rc0 room0 c h hmem
      simp only [] at h
      simp only []
      by_cases hk : rc0 = rc
      · subst hk
        rw [mapSet_self] at h
        obtain rfl := (Option.some_injective _ h).symm
        rw [if_neg hws] at hmem
        rcases List.mem_append.mp hmem with hmem' | hmem'
        · have hne : c ≠ ws := fun he => hws (he ▸ hmem')
          rw [mapSet_other _ _ _ _ hne]
          cases hr : st1.rooms rc0 with
          | none => rw [hr] at hmem'; exact absurd hmem' (by simp)
          | some room =>
            refine hWF1.2 rc0 room c hr ?_
            rw [hr] at hmem'
            simpa using hmem'
        · rw [List.mem_singleton] at hmem'
          subst hmem'
          rw [mapSet_self]
          exact ⟨⟨u, rc0, now⟩, rfl, rfl⟩
      · rw [mapSet_other _ _ _ _ hk] at h
        have hne : c ≠ ws := fun he => hnm rc0 room0 h (he ▸ hmem)
        rw [mapSet_other _ _ _ _ hne]
        exact hWF1.2 rc0 room0 c h hmem

theorem wf_disconnection (st : ServerState) (isOpen : ClientId → Bool) (ws : ClientId)
    (now : Nat) (hWF : WF st) : WF (st.handleDisconnection isOpen ws now).1 := by
  unfold handleDisconnection
  cases hc : st.clients ws with
  | none =>
    simp only []
    refine ⟨hWF.1, ?_⟩
    intro rc room c h hmem
    obtain ⟨info, hinfo, hrcd⟩ := hWF.2 rc room c h hmem
    have hne : c ≠ ws := fun he => by rw [he, hc] at hinfo; exact Option.noConfusion hinfo
    exact ⟨info, by simp only []; rw [mapSet_other _ _ _ _ hne]; exact hinfo, hrcd⟩
  | some client =>
    simp only []
    have hWF1 := st.wf_leave isOpen ws now hWF
    have hnm := st.leave_not_mem isOpen ws now hWF
    refine ⟨hWF1.1, ?_⟩
    intro rc room c h hmem
    obtain ⟨info, hinfo, hrcd⟩ := hWF1.2 rc room c h hmem
    have hne : c ≠ ws := fun he => hnm rc room h (he ▸ hmem)
    exact ⟨info, by simp only []; rw [mapSet_other _ _ _ _ hne]; exact hinfo, hrcd⟩

theorem wf_ping (st : ServerState) (isOpen : ClientId → Bool) (ws : ClientId)
    (now : Nat) (hWF : WF st) : WF (st.handlePing isOpen ws now).1 := by
  unfold handlePing
  cases hc : st.clients ws with
  | none => simpa using hWF
  | some client =>
    simp only []
    refine ⟨hWF.1, ?_⟩
    intro rc room c h hmem
    obtain ⟨info, hinfo, hrcd⟩ := hWF.2 rc room c h hmem
    by_cases hne : c = ws
    · subst hne
      rw [hc] at hinfo
      obtain rfl := (Option.some_injective _ hinfo).symm
      exact ⟨{ info with lastSeen := now }, by simp only []; rw [mapSet_self], hrcd⟩
    · exact ⟨info, by simp only []; rw [mapSet_other _ _ _ _ hne]; exact hinfo, hrcd⟩

theorem wf_handleRaw (st : ServerState) (isOpen : ClientId → Bool) (ws : ClientId)
    (r : RawMsg) (now : Nat) (gen : String) (hWF : WF st) :
    WF (st.handleRaw isOpen ws r now gen).state := by
  cases r with
  | invalid => exact hWF
  | valid m =>
    cases m with
    | joinRoom m => exact st.wf_join isOpen ws m.roomCode m.username now hWF
    | chatMessage m => exact hWF
    | typing m => exact hWF
    | ping => exact st.wf_ping isOpen ws now hWF
    | other ty => exact hWF

end ServerState

theorem wf_applyStep (st : ServerState) (s : Step) (hWF : WF st) :
    WF (applyStep st s) := by
  cases s with
  | inbound ws isOpen r now gen => exact st.wf_handleRaw isOpen ws r now gen hWF
  | close ws isOpen now => exact st.wf_disconnection isOpen ws now hWF

theorem wf_foldl (l : List Step) : ∀ st : ServerState, WF st →
    WF (l.foldl applyStep st) := by
  induction l with
  | nil => intro st h; exact h
  | cons s l ih =>
    intro st h
    exact ih (applyStep st s) (wf_applyStep st s h)

/-- Every state reachable by a sequence of server events is well-formed. -/
theorem wf_runSteps (l : List Step) : WF (runSteps l) :=
  wf_foldl l initState wf_init

/-! ## Broadcast delivery lemmas -/

theorem mem_ite_filterMap (room : List ClientId) (p : ClientId → Prop) [DecidablePred p]
    (m v : OutMsg) (c : ClientId) :
    ((c, v) ∈ room.filterMap fun a => if p a then some (a, m) else none) ↔
      c ∈ room ∧ p c ∧ v = m := by
  simp only [List.mem_filterMap]
  constructor
  · rintro ⟨a, ha, hif⟩
    by_cases hp : p a
    · rw [if_pos hp] at hif
      have h2 := Option.some_injective _ hif
      have hac : a = c := congrArg Prod.fst h2
      have hmv : m = v := congrArg Prod.snd h2
      subst hac; subst hmv
      exact ⟨ha, hp, rfl⟩
    · rw [if_neg hp] at hif; exact Option.noConfusion hif
  · rintro ⟨hc, hp, rfl⟩
    exact ⟨c, hc, by rw [if_pos hp]⟩

/-- **C1.**  For every room and every session joined to it, handling an
inbound `chat_message` with non-empty-after-trim content broadcasts one
outbound `chat_message` to exactly the members of that room whose
transport is open — the sender included — and every recipient receives the
same id (the inbound id when present, otherwise the server-generated one)
and the trimmed content with the server-assigned timestamp. -/
theorem chatPost_broadcast_to_room
    (st : ServerState) (isOpen : ClientId → Bool) (ws : ClientId) (m : ChatMsgIn)
    (now : Nat) (gen : String) (info : ClientInfo) (room : List ClientId)
    (hc : st.clients ws = some info)
    (hr : st.rooms info.roomCode = some room)
    (hne : jsTrim m.content ≠ "") :
    st.handleChatMessage isOpen ws m now gen =
      room.filterMap (fun c =>
        if isOpen c then
          some (c, OutMsg.chatMessage (if m.id = "" then gen else m.id)
            info.username (jsTrim m.content) now)
        else none) ∧
    ∀ c ∈ room, isOpen c = true →
      (c, OutMsg.chatMessage (if m.id = "" then gen else m.id)
        info.username (jsTrim m.content) now) ∈ st.handleChatMessage isOpen ws m now gen := by
  have h1 : st.handleChatMessage isOpen ws m now gen =
      st.broadcastToRoom isOpen info.roomCode
        (.chatMessage (if m.id = "" then gen else m.id) info.username
          (jsTrim m.content) now) none := by
    unfold ServerState.handleChatMessage
    simp only [hc]
    rw [if_neg hne]
  have h2 : st.handleChatMessage isOpen ws m now gen =
      room.filterMap (fun c =>
        if isOpen c then
          some (c, OutMsg.chatMessage (if m.id = "" then gen else m.id)
            info.username (jsTrim m.content) now)
        else none) := by
    rw [h1]
    unfold ServerState.broadcastToRoom
    simp only [hr]
    apply List.filterMap_congr
    intro c hcm
    simp
  refine ⟨h2, ?_⟩
  intro c hcm hop
  rw [h2, mem_ite_filterMap room (fun a => isOpen a = true)]
  exact ⟨hcm, hop, rfl⟩

/-- **C1 witness**: a concrete two-member room in which "Bob" posts
`" hi  "`; both members are open and both receive the same trimmed
broadcast. -/
theorem chatPost_broadcast_to_room_witness :
    ((runSteps [.inbound 0 (fun _ => true) (.valid (.joinRoom ⟨"ROOM01", "Alice"⟩)) 1 "gA",
        .inbound 1 (fun _ => true) (.valid (.joinRoom ⟨"ROOM01", "Bob"⟩)) 2 "gB"]).clients 1
      = some ⟨"Bob", "ROOM01", 2⟩) ∧
    ((runSteps [.inbound 0 (fun _ => true) (.valid (.joinRoom ⟨"ROOM01", "Alice"⟩)) 1 "gA",
        .inbound 1 (fun _ => true) (.valid (.joinRoom ⟨"ROOM01", "Bob"⟩)) 2 "gB"]).rooms "ROOM01"
      = some [0, 1]) ∧
    jsTrim " hi  " ≠ "" ∧
    ((runSteps [.inbound 0 (fun _ => true) (.valid (.joinRoom ⟨"ROOM01", "Alice"⟩)) 1 "gA",
        .inbound 1 (fun _ => true) (.valid (.joinRoom ⟨"ROOM01", "Bob"⟩)) 2 "gB"]).handleChatMessage
        (fun _ => true) 1 ⟨"id7", " hi  ", "ROOM01", "Bob", 3⟩ 9 "gen" =
      [0, 1].filterMap (fun c =>
        if (fun _ => true) c then
          some (c, OutMsg.chatMessage (if ("id7" : String) = "" then "gen" else "id7")
            "Bob" (jsTrim " hi  ") 9)
        else none) ∧
    ∀ c ∈ [0, 1], (fun _ => true) c = true →
      (c, OutMsg.chatMessage (if ("id7" : String) = "" then "gen" else "id7")
        "Bob" (jsTrim " hi  ") 9) ∈
        (runSteps [.inbound 0 (fun _ => true) (.valid (.joinRoom ⟨"ROOM01", "Alice"⟩)) 1 "gA",
          .inbound 1 (fun _ => true) (.valid (.joinRoom ⟨"ROOM01", "Bob"⟩)) 2 "gB"]).handleChatMessage
          (fun _ => true) 1 ⟨"id7", " hi  ", "ROOM01", "Bob", 3⟩ 9 "gen") :=
  ⟨by decide, by decide, by decide,
    chatPost_broadcast_to_room _ (fun _ => true) 1 ⟨"id7", " hi  ", "ROOM01", "Bob", 3⟩
      9 "gen" ⟨"Bob", "ROOM01", 2⟩ [0, 1] (by decide) (by decide) (by decide)⟩

/-- **C6.**  For every room and every inbound `typing` event from a joined
session, the broadcast goes to exactly the *other* open members of the
room, and nothing is ever delivered back to the originating session. -/
theorem typing_broadcast_excludes_origin
    (st : ServerState) (isOpen : ClientId → Bool) (ws : ClientId) (m : TypingMsgIn)
    (now : Nat) (info : ClientInfo) (room : List ClientId)
    (hc : st.clients ws = some info)
    (hr : st.rooms info.roomCode = some room) :
    st.handleTyping isOpen ws m now =
      room.filterMap (fun c =>
        if c ≠ ws ∧ isOpen c then
          some (c, OutMsg.typing info.username m.isTyping now)
        else none) ∧
    (∀ c ∈ room, c ≠ ws → isOpen c = true →
      (c, OutMsg.typing info.username m.isTyping now) ∈ st.handleTyping isOpen ws m now) ∧
    ∀ o : OutMsg, (ws, o) ∉ st.handleTyping isOpen ws m now := by
  have h2 : st.handleTyping isOpen ws m now =
      room.filterMap (fun c =>
        if c ≠ ws ∧ isOpen c then
          some (c, OutMsg.typing info.username m.isTyping now)
        else none) := by
    unfold ServerState.handleTyping
    simp only [hc]
    unfold ServerState.broadcastToRoom
    simp only [hr]
    apply List.filterMap_congr
    intro c hcm
    simp
  refine ⟨h2, ?_, ?_⟩
  · intro c hcm hne hop
    rw [h2, mem_ite_filterMap room (fun a => a ≠ ws ∧ isOpen a = true)]
    exact ⟨hcm, ⟨hne, hop⟩, rfl⟩
  · intro o ho
    rw [h2, mem_ite_filterMap room (fun a => a ≠ ws ∧ isOpen a = true)] at ho
    exact ho.2.1.1 rfl

/-- **C6 witness**: in a concrete two-member room, session 1's typing
event reaches only session 0 and never session 1 itself. -/
theorem typing_broadcast_excludes_origin_witness :
    ((runSteps [.inbound 0 (fun _ => true) (.valid (.joinRoom ⟨"ROOM01", "Alice"⟩)) 1 "gA",
        .inbound 1 (fun _ => true) (.valid (.joinRoom ⟨"ROOM01", "Bob"⟩)) 2 "gB"]).clients 1
      = some ⟨"Bob", "ROOM01", 2⟩) ∧
    ((runSteps [.inbound 0 (fun _ => true) (.valid (.joinRoom ⟨"ROOM01", "Alice"⟩)) 1 "gA",
        .inbound 1 (fun _ => true) (.valid (.joinRoom ⟨"ROOM01", "Bob"⟩)) 2 "gB"]).rooms "ROOM01"
      = some [0, 1]) ∧
    ((runSteps [.inbound 0 (fun _ => true) (.valid (.joinRoom ⟨"ROOM01", "Alice"⟩)) 1 "gA",
        .inbound 1 (fun _ => true) (.valid (.joinRoom ⟨"ROOM01", "Bob"⟩)) 2 "gB"]).handleTyping
        (fun _ => true) 1 ⟨true, "ROOM01", "Bob", 3⟩ 9 =
      [0, 1].filterMap (fun c =>
        if c ≠ 1 ∧ (fun _ => true) c then
          some (c, OutMsg.typing "Bob" true 9)
        else none) ∧
    (∀ c ∈ [0, 1], c ≠ 1 → (fun _ => true) c = true →
      (c, OutMsg.typing "Bob" true 9) ∈
        (runSteps [.inbound 0 (fun _ => true) (.valid (.joinRoom ⟨"ROOM01", "Alice"⟩)) 1 "gA",
          .inbound 1 (fun _ => true) (.valid (.joinRoom ⟨"ROOM01", "Bob"⟩)) 2 "gB"]).handleTyping
          (fun _ => true) 1 ⟨true, "ROOM01", "Bob", 3⟩ 9) ∧
    ∀ o : OutMsg, (1, o) ∉
      (runSteps [.inbound 0 (fun _ => true) (.valid (.joinRoom ⟨"ROOM01", "Alice"⟩)) 1 "gA",
        .inbound 1 (fun _ => true) (.valid (.joinRoom ⟨"ROOM01", "Bob"⟩)) 2 "gB"]).handleTyping
        (fun _ => true) 1 ⟨true, "ROOM01", "Bob", 3⟩ 9) :=
  ⟨by decide, by decide,
    typing_broadcast_excludes_origin _ (fun _ => true) 1 ⟨true, "ROOM01", "Bob", 3⟩
      9 ⟨"Bob", "ROOM01", 2⟩ [0, 1] (by decide) (by decide)⟩

/-- **C10.**  The username on every outbound chat or typing broadcast is
the one registered at the session's most recent join, not the inbound
message's `username` field: two inbound messages from the same joined
session differing only in that field yield identical server output, so a
session cannot impersonate another name without re-joining. -/
theorem broadcast_username_ignores_inbound_field
    (st : ServerState) (isOpen : ClientId → Bool) (ws : ClientId)
    (m : ChatMsgIn) (tm : TypingMsgIn) (u1 u2 : String) (now : Nat) (gen : String)
    (info : ClientInfo) (hc : st.clients ws = some info) :
    (st.handleChatMessage isOpen ws { m with username := u1 } now gen =
      st.handleChatMessage isOpen ws { m with username := u2 } now gen) ∧
    (st.handleTyping isOpen ws { tm with username := u1 } now =
      st.handleTyping isOpen ws { tm with username := u2 } now) ∧
    (∀ c i un cont t,
      (c, OutMsg.chatMessage i un cont t) ∈ st.handleChatMessage isOpen ws m now gen →
        un = info.username) ∧
    (∀ c un b t,
      (c, OutMsg.typing un b t) ∈ st.handleTyping isOpen ws tm now →
        un = info.username) := by
  refine ⟨rfl, rfl, ?_, ?_⟩
  · intro c i un cont t hmem
    unfold ServerState.handleChatMessage at hmem
    simp only [hc] at hmem
    by_cases hne : jsTrim m.content = ""
    · rw [if_pos hne] at hmem
      unfold ServerState.sendTo at hmem
      by_cases hop : isOpen ws = true
      · rw [if_pos hop] at hmem
        rw [List.mem_singleton] at hmem
        exact absurd (congrArg Prod.snd hmem) (by simp)
      · rw [if_neg hop] at hmem
        exact absurd hmem (List.not_mem_nil _)
    · rw [if_neg hne] at hmem
      unfold ServerState.broadcastToRoom at hmem
      cases hr : st.rooms info.roomCode with
      | none => rw [hr] at hmem; exact absurd hmem (List.not_mem_nil _)
      | some room =>
        rw [hr] at hmem
        rw [mem_ite_filterMap room (fun a => some a ≠ none ∧ isOpen a = true)] at hmem
        have := hmem.2.2
        exact (OutMsg.chatMessage.injEq _ _ _ _ _ _ _ _).mp this |>.2.1
  · intro c un b t hmem
    unfold ServerState.handleTyping at hmem
    simp only [hc] at hmem
    unfold ServerState.broadcastToRoom at hmem
    cases hr : st.rooms info.roomCode with
    | none => rw [hr] at hmem; exact absurd hmem (List.not_mem_nil _)
    | some room =>
      rw [hr] at hmem
      rw [mem_ite_filterMap room (fun a => some a ≠ some ws ∧ isOpen a = true)] at hmem
      have := hmem.2.2
      exact (OutMsg.typing.injEq _ _ _ _ _ _).mp this |>.1

/-- **C10 witness**: concretely, two chat posts from session 1 that differ
only in the claimed username produce identical broadcasts, both carrying
the registered name "Bob". -/
theorem broadcast_username_ignores_inbound_field_witness :
    ((runSteps [.inbound 0 (fun _ => true) (.valid (.joinRoom ⟨"ROOM01", "Alice"⟩)) 1 "gA",
        .inbound 1 (fun _ => true) (.valid (.joinRoom ⟨"ROOM01", "Bob"⟩)) 2 "gB"]).clients 1
      = some ⟨"Bob", "ROOM01", 2⟩) ∧
    ((runSteps [.inbound 0 (fun _ => true) (.valid (.joinRoom ⟨"ROOM01", "Alice"⟩)) 1 "gA",
        .inbound 1 (fun _ => true) (.valid (.joinRoom ⟨"ROOM01", "Bob"⟩)) 2 "gB"]).handleChatMessage
        (fun _ => true) 1
        { (⟨"id7", "hey", "ROOM01", "Bob", 3⟩ : ChatMsgIn) with username := "Alice" } 9 "gen" =
      (runSteps [.inbound 0 (fun _ => true) (.valid (.joinRoom ⟨"ROOM01", "Alice"⟩)) 1 "gA",
        .inbound 1 (fun _ => true) (.valid (.joinRoom ⟨"ROOM01", "Bob"⟩)) 2 "gB"]).handleChatMessage
        (fun _ => true) 1
        { (⟨"id7", "hey", "ROOM01", "Bob", 3⟩ : ChatMsgIn) with username := "Mallory" } 9 "gen") ∧
    (∀ c i un cont t,
      (c, OutMsg.chatMessage i un cont t) ∈
        (runSteps [.inbound 0 (fun _ => true) (.valid (.joinRoom ⟨"ROOM01", "Alice"⟩)) 1 "gA",
          .inbound 1 (fun _ => true) (.valid (.joinRoom ⟨"ROOM01", "Bob"⟩)) 2 "gB"]).handleChatMessage
          (fun _ => true) 1 ⟨"id7", "hey", "ROOM01", "Bob", 3⟩ 9 "gen" →
        un = ("Bob" : String)) :=
  ⟨by decide,
    (broadcast_username_ignores_inbound_field _ (fun _ => true) 1
      ⟨"id7", "hey", "ROOM01", "Bob", 3⟩ ⟨true, "ROOM01", "Bob", 3⟩ "Alice" "Mallory"
      9 "gen" ⟨"Bob", "ROOM01", 2⟩ (by decide)).1,
    fun c i un cont t hmem =>
      (broadcast_username_ignores_inbound_field _ (fun _ => true) 1
        ⟨"id7", "hey", "ROOM01", "Bob", 3⟩ ⟨true, "ROOM01", "Bob", 3⟩ "Alice" "Mallory"
        9 "gen" ⟨"Bob", "ROOM01", 2⟩ (by decide)).2.2.1 c i un cont t hmem⟩

/-- **C7 counterexample.**  A well-formed envelope with an unknown `type`
(`"frobnicate"`), sent by an open, joined connection, produces *no* output
at all — in particular no error notice to the originator, contrary to the
claim that both un-parseable and unknown-type inbound messages are answered
with an error notice. -/
theorem unknown_variant_sends_no_error_cex :
    ((runSteps [.inbound 0 (fun _ => true) (.valid (.joinRoom ⟨"ROOM01", "Alice"⟩)) 1 "gA",
        .inbound 1 (fun _ => true) (.valid (.joinRoom ⟨"ROOM01", "Bob"⟩)) 2 "gB"]).handleRaw
        (fun _ => true) 0 (.valid (.other "frobnicate")) 9 "gen").out = [] ∧
    ((runSteps [.inbound 0 (fun _ => true) (.valid (.joinRoom ⟨"ROOM01", "Alice"⟩)) 1 "gA",
        .inbound 1 (fun _ => true) (.valid (.joinRoom ⟨"ROOM01", "Bob"⟩)) 2 "gB"]).handleRaw
        (fun _ => true) 0 (.valid (.other "frobnicate")) 9 "gen").closed = [] := by
  decide

/-- **C7 (amended).**  An un-parseable envelope is answered with an error
notice to the originating connection only, with no state change, nothing to
any other session, and no connection closed; a well-formed envelope with an
unknown `type` produces no output at all (and also closes nothing and
changes nothing). -/
theorem malformed_inbound_handling
    (st : ServerState) (isOpen : ClientId → Bool) (ws : ClientId) (now : Nat)
    (gen : String) (ty : String) :
    ((st.handleRaw isOpen ws .invalid now gen).state = st) ∧
    ((st.handleRaw isOpen ws .invalid now gen).closed = []) ∧
    (∀ q ∈ (st.handleRaw isOpen ws .invalid now gen).out,
        q.1 = ws ∧ q.2 = OutMsg.error "Invalid message format" now) ∧
    (isOpen ws = true →
      (st.handleRaw isOpen ws .invalid now gen).out
        = [(ws, OutMsg.error "Invalid message format" now)]) ∧
    (st.handleRaw isOpen ws (.valid (.other ty)) now gen = ⟨st, [], []⟩) := by
  refine ⟨rfl, rfl, ?_, ?_, rfl⟩
  · intro q hq
    unfold ServerState.handleRaw ServerState.sendTo at hq
    by_cases hop : isOpen ws = true
    · rw [if_pos hop] at hq
      rw [List.mem_singleton] at hq
      subst hq
      exact ⟨rfl, rfl⟩
    · rw [if_neg hop] at hq
      exact absurd hq (List.not_mem_nil _)
  · intro hop
    unfold ServerState.handleRaw ServerState.sendTo
    rw [if_pos hop]

/-- **C7 witness**: the amended behaviour at a concrete open connection. -/
theorem malformed_inbound_handling_witness :
    ((initState.handleRaw (fun _ => true) 4 .invalid 9 "gen").state = initState) ∧
    ((initState.handleRaw (fun _ => true) 4 .invalid 9 "gen").closed = []) ∧
    (∀ q ∈ (initState.handleRaw (fun _ => true) 4 .invalid 9 "gen").out,
        q.1 = 4 ∧ q.2 = OutMsg.error "Invalid message format" 9) ∧
    ((initState.handleRaw (fun _ => true) 4 .invalid 9 "gen").out
        = [(4, OutMsg.error "Invalid message format" 9)]) ∧
    (initState.handleRaw (fun _ => true) 4 (.valid (.other "zap")) 9 "gen"
        = ⟨initState, [], []⟩) :=
  ⟨(malformed_inbound_handling initState (fun _ => true) 4 9 "gen" "zap").1,
   (malformed_inbound_handling initState (fun _ => true) 4 9 "gen" "zap").2.1,
   (malformed_inbound_handling initState (fun _ => true) 4 9 "gen" "zap").2.2.1,
   (malformed_inbound_handling initState (fun _ => true) 4 9 "gen" "zap").2.2.2.1 rfl,
   (malformed_inbound_handling initState (fun _ => true) 4 9 "gen" "zap").2.2.2.2⟩

/-- **C8.**  The delay scheduled before reconnect attempt `n` (the `n`-th
call to `attemptReconnect`, entered with `reconnectAttempts = n − 1`) is
`baseDelay × 2^(n−1)` with `baseDelay = 1000` ms, for every `n` — the
formula is exact, so growth is uncapped across the 5-attempt budget. -/
theorem reconnect_backoff_formula (c : ClientConn) (n : Nat)
    (h : n = c.reconnectAttempts + 1) :
    (attemptReconnect c).2 = reconnectDelayMs * 2 ^ (n - 1) ∧
    reconnectDelayMs = 1000 ∧
    maxReconnectAttempts = 5 ∧
    (attemptReconnect c).1.reconnectAttempts = n := by
  subst h
  exact ⟨by simp [attemptReconnect], rfl, rfl, by simp [attemptReconnect]⟩

/-- **C8 witness**: attempt number 3 (entered with 2 recorded attempts) is
scheduled after 1000·2² = 4000 ms. -/
theorem reconnect_backoff_formula_witness :
    (3 = (⟨false, 2, false⟩ : ClientConn).reconnectAttempts + 1) ∧
    ((attemptReconnect ⟨false, 2, false⟩).2 = reconnectDelayMs * 2 ^ (3 - 1) ∧
      reconnectDelayMs = 1000 ∧
      maxReconnectAttempts = 5 ∧
      (attemptReconnect ⟨false, 2, false⟩).1.reconnectAttempts = 3) :=
  ⟨by decide, reconnect_backoff_formula ⟨false, 2, false⟩ 3 (by decide)⟩

/-- **C4 counterexample.**  The server-side join performs no format
validation: a join with room code `"AB"` (rejected by `validateRoomCode`)
and display name `"Al!ce"` (rejected by `validateUsername`) is accepted —
the session is inserted into room `"AB"` and answered with `room_joined`,
not with an error. -/
theorem server_join_skips_format_validation_cex :
    validateRoomCode "AB" = false ∧
    validateUsername "Al!ce" = false ∧
    (initState.handleJoinRoom (fun _ => true) 0 "AB" "Al!ce" 7).1.rooms "AB" = some [0] ∧
    (initState.handleJoinRoom (fun _ => true) 0 "AB" "Al!ce" 7).2 =
      [(0, .roomJoined "AB" "Al!ce"), (0, .userList ["Al!ce"]),
        (0, .userList ["Al!ce"])] := by
  decide

/-- **C4 (amended).**  The room-code and display-name *format* rules
(6 alphanumeric characters case-insensitively, stored uppercase; 1–20
characters from letters/digits/space/hyphen/underscore) are enforced on
the client before any join is sent: a `join_room` envelope is produced only
for inputs both validators accept, and then carries the uppercased code and
trimmed name.  The server-side join itself only rejects a missing/empty
room code or username, with an error to the requester and no insertion. -/
theorem join_validation_location
    (st : ServerState) (isOpen : ClientId → Bool) (ws : ClientId) (rc u : String)
    (now : Nat) :
    (rc = "" ∨ u = "" →
      st.handleJoinRoom isOpen ws rc u now =
        (st, ServerState.sendTo isOpen ws
          (.error "Room code and username are required" now))) ∧
    (∀ j, clientJoinRequest rc u = some j →
      validateRoomCode rc = true ∧ validateUsername u = true ∧
      j.roomCode = jsToUpper rc ∧ j.username = jsTrim u) ∧
    (validateRoomCode rc = false ∨ validateUsername u = false →
      clientJoinRequest rc u = none) := by
  refine ⟨?_, ?_, ?_⟩
  · intro h
    unfold ServerState.handleJoinRoom
    rw [if_pos h]
  · intro j hj
    unfold clientJoinRequest at hj
    by_cases hcond : (validateRoomCode rc && validateUsername u) = true
    · rw [if_pos hcond] at hj
      obtain rfl := (Option.some_injective _ hj).symm
      rcases Bool.and_eq_true_iff.mp hcond with ⟨h1, h2⟩
      exact ⟨h1, h2, rfl, rfl⟩
    · rw [if_neg hcond] at hj
      exact Option.noConfusion hj
  · intro h
    unfold clientJoinRequest
    have hcond : ¬((validateRoomCode rc && validateUsername u) = true) := by
      rcases h with h | h <;> simp [h]
    rw [if_neg hcond]

/-- **C4 witness**: empty room code → server error without insertion; valid
lowercase inputs → join sent uppercased; invalid code → no join sent. -/
theorem join_validation_location_witness :
    (initState.handleJoinRoom (fun _ => true) 0 "" "Alice" 5 =
      (initState, ServerState.sendTo (fun _ => true) 0
        (.error "Room code and username are required" 5))) ∧
    clientJoinRequest "ab12cd" "Alice" = some ⟨"AB12CD", "Alice"⟩ ∧
    (validateRoomCode "ab12cd" = true ∧ validateUsername "Alice" = true ∧
      (⟨"AB12CD", "Alice"⟩ : JoinMsgIn).roomCode = jsToUpper "ab12cd" ∧
      (⟨"AB12CD", "Alice"⟩ : JoinMsgIn).username = jsTrim "Alice") ∧
    clientJoinRequest "AB" "Alice" = none :=
  ⟨(join_validation_location initState (fun _ => true) 0 "" "Alice" 5).1 (Or.inl rfl),
   by decide,
   (join_validation_location initState (fun _ => true) 0 "ab12cd" "Alice" 5).2.1
     ⟨"AB12CD", "Alice"⟩ (by decide),
   (join_validation_location initState (fun _ => true) 0 "AB" "Alice" 5).2.2
     (Or.inl (by decide))⟩

/-- **C2.**  Rooms live exactly as long as they have members: (a) every
room in any reachable registry state is non-empty; (b) removing the last
member (leave, disconnect, or eviction — all via the `'close'` path)
deletes the room synchronously, so its code is absent afterwards; (c) a
subsequent join with the same code creates a fresh room containing only the
new member. -/
theorem room_deleted_with_last_member :
    (∀ (steps : List Step) (rc : String) (room : List ClientId),
      (runSteps steps).rooms rc = some room → room ≠ []) ∧
    (∀ (st : ServerState) (isOpen : ClientId → Bool) (ws : ClientId) (rc : String)
      (now : Nat), WF st → st.rooms rc = some [ws] →
      (st.handleDisconnection isOpen ws now).1.rooms rc = none) ∧
    (∀ (st : ServerState) (isOpen : ClientId → Bool) (ws : ClientId) (rc u : String)
      (now : Nat), st.rooms rc = none → rc ≠ "" → u ≠ "" →
      (st.handleJoinRoom isOpen ws rc u now).1.rooms rc = some [ws]) := by
  refine ⟨?_, ?_, ?_⟩
  · intro steps rc room h
    exact ((wf_runSteps steps).1 rc room h).1
  · intro st isOpen ws rc now hWF hroom
    obtain ⟨info, hinfo, hrcd⟩ := hWF.2 rc [ws] ws hroom (by simp)
    unfold ServerState.handleDisconnection
    simp only [hinfo]
    show (st.leaveCurrentRoom isOpen ws now).1.rooms rc = none
    rw [ServerState.leave_rooms_eq]
    simp only [hinfo, hrcd, hroom]
    simp
  · intro st isOpen ws rc u now hnone hrc hu
    rw [ServerState.join_state_eq st isOpen ws rc u now hrc hu]
    show mapSet (st.leaveCurrentRoom isOpen ws now).1.rooms rc
        (some ((fun room => if ws ∈ room then room else room ++ [ws])
          (((st.leaveCurrentRoom isOpen ws now).1.rooms rc).getD []))) rc = some [ws]
    rw [mapSet_self]
    rw [st.leave_rooms_none isOpen ws now rc hnone]
    simp

/-- **C2 witness**: one session joins room `"ROOM01"` and disconnects; the
room is gone; a later join with a fresh code yields a singleton room. -/
theorem room_deleted_with_last_member_witness :
    (((runSteps [.inbound 0 (fun _ => true)
        (.valid (.joinRoom ⟨"ROOM01", "Alice"⟩)) 1 "gA"]).rooms "ROOM01" = some [0]) ∧
      ([0] : List ClientId) ≠ []) ∧
    (((runSteps [.inbound 0 (fun _ => true)
        (.valid (.joinRoom ⟨"ROOM01", "Alice"⟩)) 1 "gA"]).handleDisconnection
        (fun _ => true) 0 2).1.rooms "ROOM01" = none) ∧
    (initState.rooms "ROOM02" = none) ∧
    ((initState.handleJoinRoom (fun _ => true) 5 "ROOM02" "Carol" 3).1.rooms "ROOM02"
      = some [5]) :=
  ⟨⟨by decide,
    room_deleted_with_last_member.1
      [.inbound 0 (fun _ => true) (.valid (.joinRoom ⟨"ROOM01", "Alice"⟩)) 1 "gA"]
      "ROOM01" [0] (by decide)⟩,
   room_deleted_with_last_member.2.1 _ (fun _ => true) 0 "ROOM01" 2
     (wf_runSteps _) (by decide),
   rfl,
   room_deleted_with_last_member.2.2 initState (fun _ => true) 5 "ROOM02" "Carol" 3
     rfl (by decide) (by decide)⟩

/-- **C3.**  A session is in at most one room: (a) in every reachable
registry state, no connection appears in the member sets of two different
room codes; (b) a join into room `rc` leaves the joiner in no other room —
the previous membership is removed (by the full leave processing) before
the insertion. -/
theorem session_in_at_most_one_room :
    (∀ (steps : List Step) (rc1 rc2 : String) (room1 room2 : List ClientId)
      (c : ClientId),
      (runSteps steps).rooms rc1 = some room1 →
      (runSteps steps).rooms rc2 = some room2 →
      c ∈ room1 → c ∈ room2 → rc1 = rc2) ∧
    (∀ (st : ServerState) (isOpen : ClientId → Bool) (ws : ClientId) (rc u : String)
      (now : Nat), WF st → rc ≠ "" → u ≠ "" →
      ∀ (rc' : String) (room' : List ClientId), rc' ≠ rc →
        (st.handleJoinRoom isOpen ws rc u now).1.rooms rc' = some room' →
        ws ∉ room') := by
  refine ⟨?_, ?_⟩
  · intro steps rc1 rc2 room1 room2 c h1 h2 hm1 hm2
    have hWF := wf_runSteps steps
    obtain ⟨info1, hinfo1, hrc1⟩ := hWF.2 rc1 room1 c h1 hm1
    obtain ⟨info2, hinfo2, hrc2⟩ := hWF.2 rc2 room2 c h2 hm2
    rw [hinfo1] at hinfo2
    obtain rfl : info1 = info2 := Option.some_injective _ hinfo2
    rw [← hrc1, ← hrc2]
  · intro st isOpen ws rc u now hWF hrc hu rc' room' hne h
    rw [ServerState.join_state_eq st isOpen ws rc u now hrc hu] at h
    simp only [] at h
    rw [mapSet_other _ _ _ _ hne] at h
    exact st.leave_not_mem isOpen ws now hWF rc' room' h

/-- **C3 witness**: with Alice and Bob in `"ROOM01"`, Bob joins
`"ROOM02"`; `"ROOM01"` retains only Alice and Bob is not in it. -/
theorem session_in_at_most_one_room_witness :
    ("ROOM01" : String) = "ROOM01" ∧
    ((((runSteps [.inbound 0 (fun _ => true)
          (.valid (.joinRoom ⟨"ROOM01", "Alice"⟩)) 1 "gA",
        .inbound 1 (fun _ => true)
          (.valid (.joinRoom ⟨"ROOM01", "Bob"⟩)) 2 "gB"]).handleJoinRoom
        (fun _ => true) 1 "ROOM02" "Bob" 3).1.rooms "ROOM01" = some [0]) ∧
      (1 : ClientId) ∉ ([0] : List ClientId)) :=
  ⟨session_in_at_most_one_room.1
      [.inbound 0 (fun _ => true) (.valid (.joinRoom ⟨"ROOM01", "Alice"⟩)) 1 "gA"]
      "ROOM01" "ROOM01" [0] [0] 0 (by decide) (by decide) (by decide) (by decide),
   ⟨by decide,
    session_in_at_most_one_room.2
      (runSteps [.inbound 0 (fun _ => true)
          (.valid (.joinRoom ⟨"ROOM01", "Alice"⟩)) 1 "gA",
        .inbound 1 (fun _ => true)
          (.valid (.joinRoom ⟨"ROOM01", "Bob"⟩)) 2 "gB"])
      (fun _ => true) 1 "ROOM02" "Bob" 3 (wf_runSteps _)
      (by decide) (by decide) "ROOM01" [0] (by decide) (by decide)⟩⟩

/-- **C9 counterexample.**  The server does not enforce display-name
uniqueness: with session 0 already in `"ROOM01"` as "Alice", a valid join
by session 1 under the same name "Alice" makes the member list contain the
joining display name twice, not exactly once. -/
theorem membersOf_duplicate_display_name_cex :
    validateRoomCode "ROOM01" = true ∧
    validateUsername "Alice" = true ∧
    ((runSteps [.inbound 0 (fun _ => true)
        (.valid (.joinRoom ⟨"ROOM01", "Alice"⟩)) 1 "gA",
      .inbound 1 (fun _ => true)
        (.valid (.joinRoom ⟨"ROOM01", "Alice"⟩)) 2 "gB"]).getRoomUsers "ROOM01"
      = ["Alice", "Alice"]) ∧
    ((runSteps [.inbound 0 (fun _ => true)
        (.valid (.joinRoom ⟨"ROOM01", "Alice"⟩)) 1 "gA",
      .inbound 1 (fun _ => true)
        (.valid (.joinRoom ⟨"ROOM01", "Alice"⟩)) 2 "gB"]).getRoomUsers "ROOM01").count
      "Alice" = 2 := by
  decide

/-- **C9 (amended).**  After a join with both fields present, the member
list of the target room always contains the joining display name, and
contains it *exactly once* provided no other member of the room carries the
same display name (the server does not enforce name uniqueness). -/
theorem join_membersOf_name_occurrences
    (st : ServerState) (isOpen : ClientId → Bool) (ws : ClientId) (rc u : String)
    (now : Nat) (hWF : WF st) (hrc : rc ≠ "") (hu : u ≠ "") :
    (u ∈ (st.handleJoinRoom isOpen ws rc u now).1.getRoomUsers rc) ∧
    (∀ room', (st.handleJoinRoom isOpen ws rc u now).1.rooms rc = some room' →
      (∀ c ∈ room', c ≠ ws →
        ((st.handleJoinRoom isOpen ws rc u now).1.clients c).map (·.username)
          ≠ some u) →
      ((st.handleJoinRoom isOpen ws rc u now).1.getRoomUsers rc).count u = 1) := by
  have hnm := st.leave_not_mem isOpen ws now hWF
  rw [ServerState.join_state_eq st isOpen ws rc u now hrc hu]
  set st1 := (st.leaveCurrentRoom isOpen ws now).1 with hst1
  have hws : ws ∉ (st1.rooms rc).getD [] := by
    cases hr : st1.rooms rc with
    | none => simp
    | some room => simpa using hnm rc room hr
  set roomL := (st1.rooms rc).getD [] with hroomL
  set st2 : ServerState :=
    { rooms := mapSet st1.rooms rc
        (some ((fun room => if ws ∈ room then room else room ++ [ws]) roomL)),
      clients := mapSet st1.clients ws (some ⟨u, rc, now⟩) } with hst2
  have hrooms : st2.rooms rc = some (roomL ++ [ws]) := by
    show mapSet st1.rooms rc _ rc = _
    rw [mapSet_self]
    simp only []
    rw [if_neg hws]
  have hfws : (st2.clients ws).map (·.username) = some u := by
    show (mapSet st1.clients ws (some ⟨u, rc, now⟩) ws).map (·.username) = some u
    rw [mapSet_self]
    rfl
  have husers : st2.getRoomUsers rc =
      (roomL ++ [ws]).filterMap fun c => (st2.clients c).map (·.username) := by
    unfold ServerState.getRoomUsers
    rw [hrooms]
  refine ⟨?_, ?_⟩
  · rw [husers]
    rw [List.mem_filterMap]
    exact ⟨ws, List.mem_append_right _ (List.mem_singleton_self ws), hfws⟩
  · intro room' hroom' hother
    obtain rfl : roomL ++ [ws] = room' := by
      rw [hrooms] at hroom'
      exact Option.some_injective _ hroom'
    rw [husers, List.filterMap_append]
    rw [List.count_append]
    have h1 : ([ws].filterMap fun c => (st2.clients c).map (·.username)) = [u] := by
      simp only [List.filterMap_cons, List.filterMap_nil, hfws]
    rw [h1]
    have h0 : (roomL.filterMap fun c => (st2.clients c).map (·.username)).count u
        = 0 := by
      rw [List.count_eq_zero]
      intro hmem
      rw [List.mem_filterMap] at hmem
      obtain ⟨c, hcL, hcu⟩ := hmem
      have hne : c ≠ ws := fun he => hws (he ▸ hcL)
      exact hother c (List.mem_append_left _ hcL) hne hcu
    rw [h0]
    simp

/-- **C9 witness**: "Bob" joins a room already containing "Alice"; the
member list contains "Bob", and exactly once. -/
theorem join_membersOf_name_occurrences_witness :
    ("Bob" ∈ ((runSteps [.inbound 0 (fun _ => true)
        (.valid (.joinRoom ⟨"ROOM01", "Alice"⟩)) 1 "gA"]).handleJoinRoom
        (fun _ => true) 1 "ROOM01" "Bob" 2).1.getRoomUsers "ROOM01") ∧
    ((((runSteps [.inbound 0 (fun _ => true)
        (.valid (.joinRoom ⟨"ROOM01", "Alice"⟩)) 1 "gA"]).handleJoinRoom
        (fun _ => true) 1 "ROOM01" "Bob" 2).1.getRoomUsers "ROOM01").count "Bob"
      = 1) :=
  ⟨(join_membersOf_name_occurrences
      (runSteps [.inbound 0 (fun _ => true)
        (.valid (.joinRoom ⟨"ROOM01", "Alice"⟩)) 1 "gA"])
      (fun _ => true) 1 "ROOM01" "Bob" 2 (wf_runSteps _)
      (by decide) (by decide)).1,
   (join_membersOf_name_occurrences
      (runSteps [.inbound 0 (fun _ => true)
        (.valid (.joinRoom ⟨"ROOM01", "Alice"⟩)) 1 "gA"])
      (fun _ => true) 1 "ROOM01" "Bob" 2 (wf_runSteps _)
      (by decide) (by decide)).2 [0, 1] (by decide) (by decide)⟩

/-- **C5 (code behaviour at the failing input).**  From the connected state
(0 attempts so far), a close with the non-normal code 1006 merely
increments the attempt counter and schedules a 1000 ms timer; when that
timer fires, the source's callback only logs — it performs no
`ClientAction` (no socket is opened, no `join_room` is re-sent, no switch
to simulation mode) and leaves the state unchanged; and once the 5-attempt
budget is consumed, a further non-normal close schedules nothing at all,
so no transition to a simulation-fallback mode ever occurs on this path. -/
theorem reconnect_is_stub_behavior :
    (handleClose ⟨true, 0, true⟩ 1006 = (⟨false, 1, false⟩, some 1000)) ∧
    (reconnectTimerFires ⟨false, 1, false⟩ = (⟨false, 1, false⟩, [])) ∧
    (handleClose ⟨false, 5, false⟩ 1006 = (⟨false, 5, false⟩, none)) := by
  decide
